import Mathlib

/-!
Shallow embedding of the MillELO match engine (`main.py`) in Lean 4, together
with proofs about the board rules (`NineMensMorris`), the authoritative clock
(`LichessStyleTimer`), the Swiss-style tournament pairing
(`lichess_style_pairing`), the rating engine (`update_ratings`,
`calculate_k_factor`) and the tournament scoring (`update_tournament_scores`).

Conventions of the embedding:
* Python in-place mutation becomes explicit state passing: a method on the
  game object becomes a function `State → args → State × result`, and a
  Python `return False` (rejected move, state untouched) becomes `none`.
* Wall-clock time (`time.time()`) is passed in explicitly as a rational
  number; Python floats are modelled by exact arithmetic (`ℚ`, and `ℝ` for
  the logistic ELO formula which uses a real exponential).
* The 24 board cells are a `List (Option Color)` indexed by `List.getD`;
  machine integers are `ℤ`/`ℕ`.
-/

namespace MillELO

/-- The two piece colours / sides; Python uses the strings
`'white'` and `'black'`. -/
inductive Color where
  | white
  | black
deriving DecidableEq, Repr

/-- The opponent colour: `'black' if player == 'white' else 'white'`. -/
def Color.opp : Color → Color
  | .white => .black
  | .black => .white

/-! ## Board engine: class `NineMensMorris` (main.py lines 986-1143) -/

/-- The 16 mill lines, verbatim from `NineMensMorris.__init__` (`self.mills`). -/
def mills : List (List ℕ) :=
  [[0, 1, 2], [3, 4, 5], [6, 7, 8], [9, 10, 11], [12, 13, 14], [15, 16, 17],
   [18, 19, 20], [21, 22, 23],
   [0, 9, 21], [3, 10, 18], [6, 11, 15], [1, 4, 7], [16, 19, 22], [8, 12, 17],
   [5, 13, 20], [2, 14, 23]]

/-- The adjacency table, verbatim from `NineMensMorris.__init__`
(`self.adjacents`); positions outside 0..23 have no neighbours. -/
def adjacents : ℕ → List ℕ
  | 0 => [1, 9]
  | 1 => [0, 2, 4]
  | 2 => [1, 14]
  | 3 => [4, 10]
  | 4 => [1, 3, 5, 7]
  | 5 => [4, 13]
  | 6 => [7, 11]
  | 7 => [4, 6, 8]
  | 8 => [7, 12]
  | 9 => [0, 10, 21]
  | 10 => [3, 9, 11, 18]
  | 11 => [6, 10, 15]
  | 12 => [8, 13, 17]
  | 13 => [5, 12, 14, 20]
  | 14 => [2, 13, 23]
  | 15 => [11, 16]
  | 16 => [15, 17, 19]
  | 17 => [12, 16]
  | 18 => [10, 19]
  | 19 => [16, 18, 20, 22]
  | 20 => [13, 19]
  | 21 => [9, 22]
  | 22 => [19, 21, 23]
  | 23 => [14, 22]
  | _ => []

/-- One entry of `self.moves` (the cumulative move log); `remove` is the
position of the captured piece if one was captured in the same call. -/
structure MoveRecord where
  fromPos : ℕ
  toPos : ℕ
  removePos : Option ℕ
  player : Color
  mill : Bool
deriving DecidableEq, Repr

/-- The mutable state of one `NineMensMorris` instance.  `phase` is the
Python integer (1 placing, 2 moving, 3 flying); `white_pieces` /
`black_pieces` are the remaining-to-place counters that start at 9. -/
structure GameState where
  board : List (Option Color)
  phase : ℕ
  current_player : Color
  white_pieces : ℤ
  black_pieces : ℤ
  total_pieces_placed : ℕ
  moves : List MoveRecord
deriving DecidableEq, Repr

/-- `sum(1 for piece in self.board if piece == c)`. -/
def countPieces (board : List (Option Color)) (c : Color) : ℕ :=
  board.count (some c)

/-- `NineMensMorris.is_mill` (lines 1012-1021): the piece at `position`
belongs to some mill line all of whose cells hold the same colour. -/
def is_mill (board : List (Option Color)) (position : ℕ) : Bool :=
  match board.getD position none with
  | none => false
  | some player =>
      mills.any fun mill =>
        mill.contains position && mill.all fun pos => board.getD pos none == some player

/-- `NineMensMorris.can_remove` (lines 1023-1028): the target must hold an
opponent piece, and pieces inside mills are never removable (the source
comment reads "Never allow removal of pieces in mills"). -/
def can_remove (board : List (Option Color)) (current_player : Color) (position : ℕ) : Bool :=
  match board.getD position none with
  | none => false
  | some c => if c = current_player then false else ! is_mill board position

/-- The phase-dispatch section of `NineMensMorris.make_move`
(lines 1031-1092): placement or movement, piece bookkeeping, the mill test
at the destination and the phase transitions.  `none` models Python's
`return False` (move rejected, nothing mutated); the Boolean paired with
the new state is `mill_formed`.  The turn is not switched here. -/
def phaseStep (s : GameState) (from_pos to_pos : ℕ) : Option (GameState × Bool) :=
  if s.phase = 1 then
    if (s.board.getD to_pos none).isSome then none
    else
      let board1 := s.board.set to_pos (some s.current_player)
      let wp := if s.current_player = .white then s.white_pieces - 1 else s.white_pieces
      let bp := if s.current_player = .black then s.black_pieces - 1 else s.black_pieces
      let total := s.total_pieces_placed + 1
      let mill_formed := is_mill board1 to_pos
      let phase1 := if 18 ≤ total then 2 else s.phase
      some ({ s with
                board := board1,
                white_pieces := wp,
                black_pieces := bp,
                total_pieces_placed := total,
                phase := phase1 }, mill_formed)
  else if s.phase = 2 then
    if ¬ (s.board.getD from_pos none = some s.current_player) ∨
        (s.board.getD to_pos none).isSome then none
    else if countPieces s.board s.current_player ≠ 3 ∧ ¬ to_pos ∈ adjacents from_pos then
      none
    else
      let board1 := (s.board.set from_pos none).set to_pos (some s.current_player)
      let mill_formed := is_mill board1 to_pos
      let phase1 :=
        if countPieces board1 .white = 3 ∨ countPieces board1 .black = 3 then 3 else s.phase
      some ({ s with board := board1, phase := phase1 }, mill_formed)
  else if s.phase = 3 then
    if ¬ (s.board.getD from_pos none = some s.current_player) ∨
        (s.board.getD to_pos none).isSome then none
    else if countPieces s.board s.current_player ≠ 3 ∧ ¬ to_pos ∈ adjacents from_pos then
      none
    else
      let board1 := (s.board.set from_pos none).set to_pos (some s.current_player)
      some ({ s with board := board1 }, is_mill board1 to_pos)
  else none

/-- `any(self.can_remove(pos) for pos in opponent_pieces)` over
`opponent_pieces = [i for i, piece in enumerate(self.board) if piece ==
opponent_color]` (lines 1102-1106). -/
def canRemoveAny (board : List (Option Color)) (current_player : Color) : Bool :=
  ((List.range board.length).filter
      (fun i => board.getD i none == some current_player.opp)).any
    (fun pos => can_remove board current_player pos)

/-- The result dictionary returned by `make_move`
(`{'success': True, 'mill_formed': ..., 'waiting_for_removal': ...}`). -/
structure MoveOutcome where
  success : Bool
  mill_formed : Bool
  waiting_for_removal : Bool
deriving DecidableEq, Repr

/-- The tail of `NineMensMorris.make_move` (lines 1094-1124): optional
capture after a mill (`piece_removed` only if `can_remove` accepts the
supplied target), computation of `can_remove_any`, the append to
`self.moves`, and the turn-switch rule. -/
def afterMill (s1 : GameState) (mill_formed : Bool) (from_pos to_pos : ℕ)
    (remove_pos : Option ℕ) : GameState × MoveOutcome :=
  let piece_removed :=
    match remove_pos with
    | some rp => mill_formed && can_remove s1.board s1.current_player rp
    | none => false
  let board2 :=
    match remove_pos with
    | some rp => if mill_formed && can_remove s1.board s1.current_player rp
                 then s1.board.set rp none else s1.board
    | none => s1.board
  let can_remove_any := mill_formed && canRemoveAny board2 s1.current_player
  let entry : MoveRecord :=
    { fromPos := from_pos, toPos := to_pos,
      removePos := if piece_removed then remove_pos else none,
      player := s1.current_player, mill := mill_formed }
  let switch := (! mill_formed) || (mill_formed && piece_removed) ||
    (mill_formed && ! can_remove_any)
  ({ s1 with
      board := board2,
      moves := s1.moves ++ [entry],
      current_player := if switch then s1.current_player.opp else s1.current_player },
   { success := true, mill_formed := mill_formed,
     waiting_for_removal := mill_formed && remove_pos.isNone && can_remove_any })

/-- `NineMensMorris.make_move(from_pos, to_pos, remove_pos=None)`
(lines 1030-1124): `none` is Python's `return False`. -/
def make_move (s : GameState) (from_pos to_pos : ℕ) (remove_pos : Option ℕ) :
    Option (GameState × MoveOutcome) :=
  (phaseStep s from_pos to_pos).map fun p => afterMill p.1 p.2 from_pos to_pos remove_pos

/-! ## Clock: class `LichessStyleTimer` (main.py lines 577-671) -/

/-- The timer state constants `TIMER_RUNNING` / `TIMER_PAUSED` /
`TIMER_EXPIRED` (lines 124-126). -/
inductive TimerState where
  | running
  | paused
  | expired
deriving DecidableEq, Repr

/-- The fields of a `LichessStyleTimer`; wall-clock instants and remaining
budgets are rationals (Python floats), `increment` is the parsed integer
number of increment seconds, `move_count` counts processed switches. -/
structure LichessStyleTimer where
  white_time : ℚ
  black_time : ℚ
  increment : ℤ
  active_player : Color
  state : TimerState
  last_update : ℚ
  move_count : ℕ
deriving DecidableEq, Repr

/-- `LichessStyleTimer.get_current_times` (lines 592-612), with the call to
`time.time()` passed in as `now`.  While running it deducts the elapsed
wall time from the active side (clamped at 0), always re-anchors
`last_update`, and returns the clamped pair `(white, black)`. -/
def get_current_times (tm : LichessStyleTimer) (now : ℚ) :
    LichessStyleTimer × ℚ × ℚ :=
  let tm1 :=
    if tm.state = .running then
      let elapsed := now - tm.last_update
      if tm.active_player = .white then
        { tm with white_time := max 0 (tm.white_time - elapsed) }
      else
        { tm with black_time := max 0 (tm.black_time - elapsed) }
    else tm
  let tm2 := { tm1 with last_update := now }
  (tm2, max 0 tm2.white_time, max 0 tm2.black_time)

/-- `LichessStyleTimer.switch_player` (lines 614-650): returns the updated
timer and the Boolean `increment_applied`.  If the timer is not running it
returns `False` and changes nothing; otherwise it deducts elapsed time from
the active side, credits the increment to that same side whenever
`self.increment > 0 and self.move_count >= 0`, then activates `new_player`,
bumps `move_count` and re-anchors `last_update`. -/
def switch_player (tm : LichessStyleTimer) (new_player : Color) (now : ℚ) :
    LichessStyleTimer × Bool :=
  if tm.state ≠ .running then (tm, false)
  else
    let elapsed := now - tm.last_update
    let tm1 :=
      if tm.active_player = .white then
        { tm with white_time := max 0 (tm.white_time - elapsed) }
      else
        { tm with black_time := max 0 (tm.black_time - elapsed) }
    let credited : LichessStyleTimer × Bool :=
      if 0 < tm.increment ∧ 0 ≤ (tm.move_count : ℤ) then
        if tm.active_player = .white then
          ({ tm1 with white_time := tm1.white_time + (tm.increment : ℚ) }, true)
        else
          ({ tm1 with black_time := tm1.black_time + (tm.increment : ℚ) }, true)
      else (tm1, false)
    ({ credited.1 with
        active_player := new_player,
        move_count := tm.move_count + 1,
        last_update := now },
     credited.2)

/-! ## Rating engine: `calculate_k_factor`, `update_ratings`
(main.py lines 4187-4283) -/

/-- Outcome of a finished game as passed to the rating and scoring
functions (Python strings `'white'`, `'black'`, `'draw'`). -/
inductive GameResult where
  | white
  | black
  | draw
deriving DecidableEq, Repr

/-- `calculate_k_factor(rating, games_played)` (lines 4187-4194); the
`games_played` argument is accepted but unused in the source. -/
def calculate_k_factor (rating : ℤ) (games_played : ℕ) : ℤ :=
  if rating < 1500 then 32
  else if rating < 2000 then 24
  else 16

/-- `expected_white = 1 / (1 + 10**((black_rating - white_rating) / 400))`
(line 4241), with exact real arithmetic in place of floats. -/
noncomputable def expected_white (white_rating black_rating : ℤ) : ℝ :=
  1 / (1 + (10 : ℝ) ^ (((black_rating - white_rating : ℤ) : ℝ) / 400))

/-- Python's built-in `round` (banker's rounding, ties to the nearest even
integer), as applied to the float rating deltas on lines 4257-4258. -/
noncomputable def pyRound (x : ℝ) : ℤ :=
  if Even ⌊x⌋ then ⌈x - 1 / 2⌉ else ⌊x + 1 / 2⌋

/-- The `white_score, black_score` assignment of lines 4245-4250. -/
noncomputable def resultScores : GameResult → ℝ × ℝ
  | .white => (1, 0)
  | .black => (0, 1)
  | .draw => (1 / 2, 1 / 2)

/-- Lines 4237-4265 of `update_ratings`: the raw ELO deltas, rounded, with
the minimum-magnitude-1 adjustment for decisive games — i.e. everything up
to but not including the anti-farming override. -/
noncomputable def ratingChangesPreFarm (white_rating black_rating : ℤ)
    (white_games black_games : ℕ) (winner : GameResult) : ℤ × ℤ :=
  let white_k := calculate_k_factor white_rating white_games
  let black_k := calculate_k_factor black_rating black_games
  let ew := expected_white white_rating black_rating
  let eb := 1 - ew
  let ws := (resultScores winner).1
  let bs := (resultScores winner).2
  let wc := pyRound ((white_k : ℝ) * (ws - ew))
  let bc := pyRound ((black_k : ℝ) * (bs - eb))
  let wc :=
    if winner ≠ .draw ∧ |wc| < 1 then (if ws > 1 / 2 then 1 else -1) else wc
  let bc :=
    if winner ≠ .draw ∧ |bc| < 1 then (if bs > 1 / 2 then 1 else -1) else bc
  (wc, bc)

/-- Lines 4237-4275 of `update_ratings`: the final per-side rating deltas,
including the 400-gap anti-farming override (lines 4267-4275). -/
noncomputable def ratingChanges (white_rating black_rating : ℤ)
    (white_games black_games : ℕ) (winner : GameResult) : ℤ × ℤ :=
  let pre := ratingChangesPreFarm white_rating black_rating white_games black_games winner
  let elo_gap := |white_rating - black_rating|
  let wc :=
    if 400 ≤ elo_gap ∧ winner = .white ∧ black_rating < white_rating then 0 else pre.1
  let bc :=
    if 400 ≤ elo_gap ∧ winner = .black ∧ white_rating < black_rating then 0 else pre.2
  (wc, bc)

/-- The new rating pair computed by `update_ratings` for a rated game
(lines 4278-4279): deltas applied under the hard rating floor of 50. -/
noncomputable def update_ratings (white_rating black_rating : ℤ)
    (white_games black_games : ℕ) (winner : GameResult) : ℤ × ℤ :=
  let ch := ratingChanges white_rating black_rating white_games black_games winner
  (max 50 (white_rating + ch.1), max 50 (black_rating + ch.2))

/-! ## Tournament scoring: `update_tournament_scores`
(main.py lines 5032-5251) -/

/-- The per-game tournament bookkeeping for the two seats of one game:
each side's accumulated score and consecutive-win streak counter
(`tournament['players'][...]['score']` and `tournament['streaks'][...]`). -/
structure TournamentPair where
  white_score : ℤ
  black_score : ℤ
  white_streak : ℕ
  black_streak : ℕ
deriving DecidableEq, Repr

/-- The score/streak effect of `update_tournament_scores(game_data, winner)`
(lines 5091-5251) on the two seats, with both players present in the
tournament roster.  A win first bumps the winner's streak, then awards
5/4/3/2 points by (berserk, streak ≥ 3); the loser's streak resets to 0.
A draw awards each side 2 points if that side's prior streak was ≥ 3 and
1 otherwise, then resets both streaks. -/
def update_tournament_scores (t : TournamentPair)
    (white_berserk black_berserk : Bool) (winner : GameResult) : TournamentPair :=
  match winner with
  | .white =>
      let new_streak := t.white_streak + 1
      let has_streak := 3 ≤ new_streak
      let points : ℤ :=
        if white_berserk ∧ has_streak then 5
        else if has_streak then 4
        else if white_berserk then 3
        else 2
      { t with
          white_score := t.white_score + points,
          white_streak := new_streak,
          black_streak := 0 }
  | .black =>
      let new_streak := t.black_streak + 1
      let has_streak := 3 ≤ new_streak
      let points : ℤ :=
        if black_berserk ∧ has_streak then 5
        else if has_streak then 4
        else if black_berserk then 3
        else 2
      { t with
          black_score := t.black_score + points,
          black_streak := new_streak,
          white_streak := 0 }
  | .draw =>
      let wpoints : ℤ := if 3 ≤ t.white_streak then 2 else 1
      let bpoints : ℤ := if 3 ≤ t.black_streak then 2 else 1
      { white_score := t.white_score + wpoints,
        black_score := t.black_score + bpoints,
        white_streak := 0,
        black_streak := 0 }

/-! ## Pairing engine: `lichess_style_pairing`, `get_last_opponent`,
`set_last_opponent` (main.py lines 4386-4465) -/

/-- One entry of the `available_players` list built on lines 4415-4425:
a username together with the tournament score and rating used as sort key. -/
structure PoolPlayer where
  username : String
  score : ℤ
  rating : ℤ
deriving DecidableEq, Repr

/-- The Python tuple order on the sort key `(score, rating)`:
lexicographic comparison. -/
def keyLE (a b : PoolPlayer) : Bool :=
  decide (a.score < b.score) ||
    (decide (a.score = b.score) && decide (a.rating ≤ b.rating))

/-- Stable descending insertion: `p` goes in front of the first element
whose key is at most `p`'s, so among equal keys earlier pool entries stay
first — the order produced by Python's stable
`list.sort(key=lambda x: (x['score'], x['rating']), reverse=True)`
(line 4428). -/
def poolInsert (p : PoolPlayer) : List PoolPlayer → List PoolPlayer
  | [] => [p]
  | q :: l => if keyLE q p then p :: q :: l else q :: poolInsert p l

/-- Stable sort of the available pool, descending by `(score, rating)`
(line 4428). -/
def sortPool : List PoolPlayer → List PoolPlayer
  | [] => []
  | p :: l => poolInsert p (sortPool l)

/-- A last-opponent table: `tournament_recent_opponents[tournament_id]`
read through `get_last_opponent` (lines 4386-4390), `none` when the player
has no recorded last opponent. -/
def LastOpp := String → Option String

/-- `set_last_opponent(tournament_id, player1, player2)` (lines 4392-4401):
records each player as the other's most recent opponent, overwriting any
previous value. -/
def set_last_opponent (m : LastOpp) (player1 player2 : String) : LastOpp :=
  fun x => if x = player2 then some player1
           else if x = player1 then some player2
           else m x

/-- The inner `for j in range(i + 1, ...)` scan of lines 4442-4457: the
first later candidate that is not yet paired, is not `player`'s recorded
last opponent, and does not record `player` as its own last opponent. -/
def findOpponent (m : LastOpp) (paired : List String) (player : String) :
    List PoolPlayer → Option String
  | [] => none
  | c :: rest =>
      if c.username ∈ paired then findOpponent m paired player rest
      else if m player = some c.username then findOpponent m paired player rest
      else if m c.username = some player then findOpponent m paired player rest
      else some c.username

/-- The outer walk of lines 4434-4463 over the sorted pool: skip players
already paired, look for the first eligible later candidate, and either
emit the pair (marking both as paired) or leave the player unpaired —
the `# NO FALLBACK` branch. -/
def pairLoop (m : LastOpp) : List PoolPlayer → List String → List (String × String)
  | [], _ => []
  | p :: rest, paired =>
      if p.username ∈ paired then pairLoop m rest paired
      else
        match findOpponent m paired p.username rest with
        | some o => (p.username, o) :: pairLoop m rest (p.username :: o :: paired)
        | none => pairLoop m rest paired

/-- `lichess_style_pairing(tournament_id)` (lines 4403-4465) applied to the
available pool of an active tournament: sort descending by
`(score, rating)`, then run the no-repeat pairing walk. -/
def lichess_style_pairing (m : LastOpp) (pool : List PoolPlayer) :
    List (String × String) :=
  pairLoop m (sortPool pool) []

/-! ## Match session: the closed-session guard of `on_make_move`
(main.py lines 3944-3960) -/

/-- The part of a stored `games[room_id]` record that the `make_move`
handler guard consults: the seat assignments and the session status string
(`'waiting_first_move'`, `'playing'`, `'finished'`, `'canceled'`). -/
structure GameSession where
  white : String
  black : String
  status : String
  game : GameState
  winner : Option GameResult
deriving Repr

/-- What the handler does with a `make_move` event before any state is
touched. -/
inductive MoveReply where
  /-- Line 3950-3951: unknown room or the sender is not one of the two
  seated players — silent `return`. -/
  | ignored
  /-- Lines 3954-3960: the session is `'canceled'` or `'finished'` — the
  handler emits `game_canceled` and returns (the `MatchClosed` case). -/
  | matchClosed
  /-- The guards passed and the rest of the handler ran. -/
  | handled
deriving DecidableEq, Repr

/-- The guard prefix of the socket handler `on_make_move`
(lines 3944-3960).  The remainder of the handler (first-move bookkeeping,
removal handling, the board mutation itself) is abstracted as `rest`,
which may transform the session arbitrarily; the guards run before it and
return the session untouched. -/
def on_make_move (username : String) (s : GameSession)
    (rest : GameSession → GameSession) : GameSession × MoveReply :=
  if username ≠ s.white ∧ username ≠ s.black then (s, .ignored)
  else if s.status = "canceled" ∨ s.status = "finished" then (s, .matchClosed)
  else (rest s, .handled)

/-! ## Accessors and concrete states used in the statements below -/

/-- The remaining budget stored for one side of the clock. -/
def sideTime (tm : LichessStyleTimer) : Color → ℚ
  | .white => tm.white_time
  | .black => tm.black_time

/-- Project one side out of the `(white, black)` pair returned by
`get_current_times`. -/
def readOf (pair : ℚ × ℚ) : Color → ℚ
  | .white => pair.1
  | .black => pair.2

/-- A 24-cell board: white on 0, 1; black on the full mill 3, 4, 5;
all other cells empty. -/
def c1BoardBefore : List (Option Color) :=
  [some .white, some .white, none,
   some .black, some .black, some .black,
   none, none, none, none, none, none, none, none, none, none, none, none,
   none, none, none, none, none, none]

/-- The same board after white also occupies 2, completing the white mill
`[0, 1, 2]`; every black piece on this board sits inside the intact black
mill `[3, 4, 5]`. -/
def c1BoardAfter : List (Option Color) :=
  [some .white, some .white, some .white,
   some .black, some .black, some .black,
   none, none, none, none, none, none, none, none, none, none, none, none,
   none, none, none, none, none, none]

/-- A placing-phase position on `c1BoardBefore`, white to move: placing on
2 completes a white mill while every black piece is inside a black mill. -/
def c1State : GameState :=
  { board := c1BoardBefore, phase := 1, current_player := .white,
    white_pieces := 7, black_pieces := 6, total_pieces_placed := 5, moves := [] }

/-- The position after white's placement on 2 in `c1State`: the board is
`c1BoardAfter` and the counters advanced. -/
def c1StateAfter : GameState :=
  { board := c1BoardAfter, phase := 1, current_player := .white,
    white_pieces := 6, black_pieces := 6, total_pieces_placed := 6, moves := [] }

/-- A placing-phase position where white completes the mill `[0, 1, 2]` by
placing on 2 while black holds the mill `[3, 4, 5]` plus a loose piece on
6, so a legal capture target exists. -/
def c10State : GameState :=
  { board :=
      [some .white, some .white, none,
       some .black, some .black, some .black,
       some .black, none, none, none, none, none, none, none, none, none,
       none, none, none, none, none, none, none, none],
    phase := 1, current_player := .white,
    white_pieces := 7, black_pieces := 5, total_pieces_placed := 6, moves := [] }

/-- The state `phaseStep c10State 0 2` produces: white placed on 2, the
counters advanced, still in the placing phase. -/
def c10Mid : GameState :=
  { c10State with
      board := c10State.board.set 2 (some .white),
      white_pieces := 6,
      total_pieces_placed := 7 }

/-- An empty game just after construction (`NineMensMorris.__init__`). -/
def freshGame : GameState :=
  { board := List.replicate 24 none, phase := 1, current_player := .white,
    white_pieces := 9, black_pieces := 9, total_pieces_placed := 0, moves := [] }

/-- A freshly created 60-second clock with a 1-second increment, running,
anchored at wall time 0, with no switch processed yet. -/
def c2Timer : LichessStyleTimer :=
  { white_time := 60, black_time := 60, increment := 1, active_player := .white,
    state := .running, last_update := 0, move_count := 0 }

/-- The four-seeker pool of the spec's pairing example: scores
`[10, 10, 8, 8]`, equal ratings. -/
def examplePool : List PoolPlayer :=
  [⟨"player1", 10, 100⟩, ⟨"player2", 10, 100⟩,
   ⟨"player3", 8, 100⟩, ⟨"player4", 8, 100⟩]

/-- The empty last-opponent table ("no recorded last opponents"). -/
def noOpp : LastOpp := fun _ => none

/-- A finished session between `"alice"` and `"bob"`. -/
def c9Session : GameSession :=
  { white := "alice", black := "bob", status := "finished",
    game := freshGame, winner := some .white }

/-! ## Helper lemmas -/

theorem max0_idem (a : ℚ) : max 0 (max 0 a) = max 0 a :=
  max_eq_right (le_max_left 0 a)

theorem max0_deduct_le (a d : ℚ) (hd : 0 ≤ d) : max 0 (a - d) ≤ max 0 a :=
  max_le_max le_rfl (by linarith)

/-! ## C9: closed-session immutability -/

/-- C9: for every match session whose status is `finished` or `canceled`,
the `make_move` handler returns before touching any state: the session
(board, move log, winner, every field) is returned unchanged whatever the
rest of the handler would do, and a seated player receives the
`MatchClosed` reply. -/
theorem closed_session_immutable (username : String) (s : GameSession)
    (rest : GameSession → GameSession)
    (hclosed : s.status = "finished" ∨ s.status = "canceled") :
    (on_make_move username s rest).1 = s ∧
    (username = s.white ∨ username = s.black →
      (on_make_move username s rest).2 = .matchClosed) := by
  have hc : s.status = "canceled" ∨ s.status = "finished" := hclosed.symm
  constructor
  · unfold on_make_move
    split_ifs <;> simp_all
  · intro hu
    unfold on_make_move
    split_ifs <;> simp_all

/-- Witness for `closed_session_immutable` at the concrete finished session
`c9Session` and seated player `"alice"`. -/
theorem closed_session_immutable_witness :
    (on_make_move "alice" c9Session id).1 = c9Session ∧
    ("alice" = c9Session.white ∨ "alice" = c9Session.black →
      (on_make_move "alice" c9Session id).2 = .matchClosed) :=
  closed_session_immutable "alice" c9Session id (Or.inl rfl)

/-! ## C4: tournament scoring -/

/-- C4: tournament scoring per finished game.  A win is worth
2 points, +1 with berserk, +2 once the winner's consecutive-win counter
(after this win) is 3 or more; the winner's streak increments and the
loser's resets to 0.  A draw is worth 2 points to a side whose prior
streak was 3+ and 1 otherwise, and resets both streaks.  In particular a
player on a streak of 3 who wins again with berserk gains exactly 5 points
and their counter becomes 4. -/
theorem tournament_scoring_spec :
    (∀ (t : TournamentPair) (wb bb : Bool),
      (update_tournament_scores t wb bb .white).white_score =
        t.white_score + 2 + (if wb then 1 else 0) +
          (if 3 ≤ t.white_streak + 1 then 2 else 0) ∧
      (update_tournament_scores t wb bb .white).white_streak = t.white_streak + 1 ∧
      (update_tournament_scores t wb bb .white).black_streak = 0 ∧
      (update_tournament_scores t wb bb .white).black_score = t.black_score) ∧
    (∀ (t : TournamentPair) (wb bb : Bool),
      (update_tournament_scores t wb bb .black).black_score =
        t.black_score + 2 + (if bb then 1 else 0) +
          (if 3 ≤ t.black_streak + 1 then 2 else 0) ∧
      (update_tournament_scores t wb bb .black).black_streak = t.black_streak + 1 ∧
      (update_tournament_scores t wb bb .black).white_streak = 0 ∧
      (update_tournament_scores t wb bb .black).white_score = t.white_score) ∧
    (∀ (t : TournamentPair) (wb bb : Bool),
      (update_tournament_scores t wb bb .draw).white_score =
        t.white_score + (if 3 ≤ t.white_streak then 2 else 1) ∧
      (update_tournament_scores t wb bb .draw).black_score =
        t.black_score + (if 3 ≤ t.black_streak then 2 else 1) ∧
      (update_tournament_scores t wb bb .draw).white_streak = 0 ∧
      (update_tournament_scores t wb bb .draw).black_streak = 0) ∧
    (update_tournament_scores ⟨0, 0, 3, 0⟩ true false .white =
      ⟨5, 0, 4, 0⟩) := by
  refine ⟨?_, ?_, ?_, by decide⟩
  · intro t wb bb
    simp only [update_tournament_scores]
    cases wb <;> split_ifs <;> simp_all <;> omega
  · intro t wb bb
    simp only [update_tournament_scores]
    cases bb <;> split_ifs <;> simp_all <;> omega
  · intro t wb bb
    simp only [update_tournament_scores]
    exact ⟨trivial, trivial, trivial, trivial⟩

/-! ## C2: increment on the very first switch (corrected) -/

/-- C2 counterexample: a running clock with increment 1 that has processed
no switch yet (`move_count = 0`) does credit the increment on its very
first `switch_player`: the call reports `increment_applied = True` and
white's budget grows from 60 to 61.  This contradicts the claim that no
increment is credited on the very first switch of a game. -/
theorem first_switch_increment_counterexample :
    c2Timer.move_count = 0 ∧
    (switch_player c2Timer .black 0).2 = true ∧
    (switch_player c2Timer .black 0).1.white_time = 61 := by
  refine ⟨rfl, ?_, ?_⟩ <;> norm_num [switch_player, c2Timer]

/-- C2 amended: on every running clock, `switch_player` credits the
increment to the side that just moved exactly when `increment > 0` —
regardless of `move_count` (the source guard `self.move_count >= 0` is
vacuously true), so the very first switch is already credited.  The side
that moved receives `max 0 (budget - elapsed) + increment`, and the switch
counter advances by one. -/
theorem switch_player_increment_spec (tm : LichessStyleTimer)
    (new_player : Color) (now : ℚ) (h : tm.state = .running) :
    ((switch_player tm new_player now).2 = true ↔ 0 < tm.increment) ∧
    (0 < tm.increment →
      sideTime (switch_player tm new_player now).1 tm.active_player =
        max 0 (sideTime tm tm.active_player - (now - tm.last_update)) +
          (tm.increment : ℚ)) ∧
    (switch_player tm new_player now).1.move_count = tm.move_count + 1 := by
  rcases tm with ⟨w, b, inc, ap, st, lu, mc⟩
  cases h
  cases ap <;>
    simp only [switch_player, sideTime] <;>
    split_ifs with hinc <;>
    simp_all [sideTime, Int.natCast_nonneg]

/-- Witness for `switch_player_increment_spec` at the concrete running
clock `c2Timer`. -/
theorem switch_player_increment_spec_witness :
    ((switch_player c2Timer .black 5).2 = true ↔ 0 < c2Timer.increment) ∧
    (0 < c2Timer.increment →
      sideTime (switch_player c2Timer .black 5).1 c2Timer.active_player =
        max 0 (sideTime c2Timer c2Timer.active_player - (5 - c2Timer.last_update)) +
          (c2Timer.increment : ℚ)) ∧
    (switch_player c2Timer .black 5).1.move_count = c2Timer.move_count + 1 :=
  switch_player_increment_spec c2Timer .black 5 rfl

/-! ## C7: clock reads without a switch -/

/-- C7: two consecutive `get_current_times` reads with no `switch_player`
in between, at wall times `t1 ≤ t2`, return a non-increasing remaining
time for the active side and exactly the same remaining time for the
inactive side — on every clock state (running or not). -/
theorem read_twice_monotone (tm : LichessStyleTimer) (t1 t2 : ℚ)
    (h : t1 ≤ t2) :
    readOf (get_current_times (get_current_times tm t1).1 t2).2 tm.active_player ≤
      readOf (get_current_times tm t1).2 tm.active_player ∧
    readOf (get_current_times (get_current_times tm t1).1 t2).2 tm.active_player.opp =
      readOf (get_current_times tm t1).2 tm.active_player.opp := by
  rcases tm with ⟨w, b, inc, ap, st, lu, mc⟩
  have hd : (0 : ℚ) ≤ t2 - t1 := by linarith
  cases st <;> cases ap
  · simp_all [get_current_times, readOf, Color.opp]
    rcases le_or_lt w (t2 - lu) with h1 | h1
    · exact Or.inl h1
    · exact Or.inr ⟨by linarith, by linarith⟩
  · simp_all [get_current_times, readOf, Color.opp]
    rcases le_or_lt b (t2 - lu) with h1 | h1
    · exact Or.inl h1
    · exact Or.inr ⟨by linarith, by linarith⟩
  · simp_all [get_current_times, readOf, Color.opp]
  · simp_all [get_current_times, readOf, Color.opp]
  · simp_all [get_current_times, readOf, Color.opp]
  · simp_all [get_current_times, readOf, Color.opp]

/-- Witness for `read_twice_monotone`: a concrete running clock read at
wall times 1 and 2. -/
theorem read_twice_monotone_witness :
    readOf (get_current_times (get_current_times c2Timer 1).1 2).2 c2Timer.active_player ≤
      readOf (get_current_times c2Timer 1).2 c2Timer.active_player ∧
    readOf (get_current_times (get_current_times c2Timer 1).1 2).2 c2Timer.active_player.opp =
      readOf (get_current_times c2Timer 1).2 c2Timer.active_player.opp :=
  read_twice_monotone c2Timer 1 2 (by norm_num)

/-! ## Board-engine helper lemmas -/

theorem can_remove_true_iff (board : List (Option Color)) (current : Color)
    (pos : ℕ) :
    can_remove board current pos = true ↔
      (board.getD pos none = some current.opp ∧ is_mill board pos = false) := by
  unfold can_remove
  cases hb : board.getD pos none with
  | none => simp
  | some c => cases c <;> cases current <;> simp [Color.opp]

theorem can_remove_not_own (board : List (Option Color)) (current : Color)
    (pos : ℕ) (h : board.getD pos none = some current) :
    can_remove board current pos = false := by
  unfold can_remove
  rw [h]
  simp

theorem phaseStep_current_player (s : GameState) (f t : ℕ) (s1 : GameState)
    (mf : Bool) (h : phaseStep s f t = some (s1, mf)) :
    s1.current_player = s.current_player := by
  unfold phaseStep at h
  split_ifs at h <;> simp_all <;> rw [← h.1]

/-! ## C1: capture legality after a mill (corrected) -/

/-- C1 counterexample: on `c1BoardAfter` every black piece on the board is
inside the intact black mill `[3, 4, 5]`, yet `can_remove` still rejects
the capture of the black piece on 3, and the mill-forming
`make_move c1State 0 2 (remove_pos := 3)` leaves the black piece on 3 on
the board.  This refutes the claimed exception that when every remaining
opponent piece is inside a mill, any opponent piece becomes removable. -/
theorem capture_all_in_mills_counterexample :
    (((List.range 24).filter
        (fun i => c1BoardAfter.getD i none == some Color.black)).all
      (fun p => is_mill c1BoardAfter p)) = true ∧
    c1BoardAfter.getD 3 none = some Color.black ∧
    can_remove c1BoardAfter Color.white 3 = false ∧
    (make_move c1State 0 2 (some 3)).map
        (fun p => (p.1.board.getD 3 none, p.2.mill_formed)) =
      some (some Color.black, true) := by
  refine ⟨by decide, by decide, by decide, by decide⟩

/-- C1 amended: a candidate removal position is legal if and only if it
holds an opponent piece and is not part of an intact opponent mill — with
no exception: the code never lifts the no-mill-break rule, so when every
remaining opponent piece is inside a mill no capture target is legal, and
a `make_move` supplied with such a target completes without removing
anything. -/
theorem capture_legality_no_exception :
    (∀ (board : List (Option Color)) (current : Color) (pos : ℕ),
      can_remove board current pos = true ↔
        (board.getD pos none = some current.opp ∧ is_mill board pos = false)) ∧
    (∀ (s1 : GameState) (mf : Bool) (f t rp : ℕ),
      can_remove s1.board s1.current_player rp = false →
        (afterMill s1 mf f t (some rp)).1.board = s1.board) := by
  constructor
  · exact can_remove_true_iff
  · intro s1 mf f t rp hcr
    unfold afterMill
    simp [hcr]

/-- Witness for `capture_legality_no_exception`: its second part applied to
the concrete post-placement position of the counterexample. -/
theorem capture_legality_no_exception_witness :
    (afterMill c1StateAfter true 0 2 (some 3)).1.board = c1StateAfter.board :=
  capture_legality_no_exception.2 c1StateAfter true 0 2 3 (by decide)

/-! ## Further board-engine helper lemmas -/

theorem afterMill_total (s1 : GameState) (mf : Bool) (f t : ℕ) (r : Option ℕ) :
    (afterMill s1 mf f t r).1.total_pieces_placed = s1.total_pieces_placed := by
  unfold afterMill
  rfl

theorem afterMill_phase (s1 : GameState) (mf : Bool) (f t : ℕ) (r : Option ℕ) :
    (afterMill s1 mf f t r).1.phase = s1.phase := by
  unfold afterMill
  rfl

theorem afterMill_success (s1 : GameState) (mf : Bool) (f t : ℕ) (r : Option ℕ) :
    (afterMill s1 mf f t r).2.success = true := by
  unfold afterMill
  rfl

theorem afterMill_board_getD (s1 : GameState) (mf : Bool) (f t : ℕ)
    (r : Option ℕ) (pos : ℕ)
    (hpos : s1.board.getD pos none = some s1.current_player) :
    (afterMill s1 mf f t r).1.board.getD pos none = some s1.current_player := by
  unfold afterMill
  cases r with
  | none => simpa using hpos
  | some rp =>
    by_cases hc : (mf && can_remove s1.board s1.current_player rp) = true
    · have hrp : can_remove s1.board s1.current_player rp = true := by
        simp only [Bool.and_eq_true] at hc
        exact hc.2
      have hne : rp ≠ pos := by
        intro he
        subst he
        rw [can_remove_not_own s1.board s1.current_player rp hpos] at hrp
        exact Bool.false_ne_true hrp
      simp only [hc, if_true]
      simpa [List.getD, List.getElem?_set, hne] using hpos
    · simp only [hc, if_false]
      simpa using hpos

theorem phaseStep_placing_from_irrelevant (s : GameState) (f1 f2 t : ℕ)
    (hphase : s.phase = 1) :
    phaseStep s f1 t = phaseStep s f2 t := by
  unfold phaseStep
  rw [hphase]
  rfl

theorem phaseStep_placing_props (s : GameState) (f t : ℕ) (s1 : GameState)
    (mf : Bool) (hphase : s.phase = 1) (h : phaseStep s f t = some (s1, mf)) :
    s1.board = s.board.set t (some s.current_player) ∧
    s1.total_pieces_placed = s.total_pieces_placed + 1 ∧
    s1.phase = (if 18 ≤ s.total_pieces_placed + 1 then 2 else s.phase) ∧
    s1.current_player = s.current_player := by
  unfold phaseStep at h
  rw [hphase] at h
  norm_num at h
  split_ifs at h <;>
    obtain ⟨h1, h2, h3⟩ := h <;>
    subst h2 <;>
    refine ⟨rfl, rfl, ?_, rfl⟩ <;>
    (try simp_all) <;>
    (try split_ifs) <;>
    omega

/-! ## C8: placing phase of make_move -/

/-- C8: in the placing phase, a move to an occupied destination is
rejected (Python returns `False` before mutating anything); with an empty
destination the mover's piece appears on the destination, the placement
counter advances, the phase flips to 2 exactly when the 18th piece got
placed, and the whole visible effect (board, phase, turn, counters,
result) is independent of the `from` argument. -/
theorem placing_phase_spec (s : GameState) (f1 f2 t : ℕ) (r : Option ℕ)
    (hphase : s.phase = 1) (ht : t < s.board.length) :
    ((s.board.getD t none).isSome = true → make_move s f1 t r = none) ∧
    ((make_move s f1 t r).map
        (fun p => (p.1.board, p.1.phase, p.1.current_player, p.1.white_pieces,
          p.1.black_pieces, p.1.total_pieces_placed, p.2)) =
      (make_move s f2 t r).map
        (fun p => (p.1.board, p.1.phase, p.1.current_player, p.1.white_pieces,
          p.1.black_pieces, p.1.total_pieces_placed, p.2))) ∧
    (s.board.getD t none = none → (make_move s f1 t r).isSome = true) ∧
    (s.board.getD t none = none →
      ∀ s' res, make_move s f1 t r = some (s', res) →
        s'.board.getD t none = some s.current_player ∧
        s'.total_pieces_placed = s.total_pieces_placed + 1 ∧
        s'.phase = (if 18 ≤ s.total_pieces_placed + 1 then 2 else 1) ∧
        res.success = true) := by
  refine ⟨?_, ?_, ?_, ?_⟩
  · intro hocc
    unfold make_move phaseStep
    rw [hphase]
    norm_num
    intro hno
    simp only [List.getD, List.get?_eq_getElem?] at hocc
    rw [hno] at hocc
    simp at hocc
  · unfold make_move
    rw [phaseStep_placing_from_irrelevant s f1 f2 t hphase]
    cases hq : phaseStep s f2 t with
    | none => rfl
    | some p =>
      rcases p with ⟨s1, mf⟩
      simp [afterMill]
  · intro hempty
    unfold make_move phaseStep
    rw [hphase]
    norm_num
    simpa [List.getD] using hempty
  · intro hempty s' res hmm
    unfold make_move at hmm
    cases hq : phaseStep s f1 t with
    | none => rw [hq] at hmm; simp at hmm
    | some p =>
      rcases p with ⟨s1, mf⟩
      rw [hq] at hmm
      have hpair : afterMill s1 mf f1 t r = (s', res) := by simpa using hmm
      obtain ⟨hb, htot, hph, hcp⟩ := phaseStep_placing_props s f1 t s1 mf hphase hq
      have hs' : s' = (afterMill s1 mf f1 t r).1 := by rw [hpair]
      have hres : res = (afterMill s1 mf f1 t r).2 := by rw [hpair]
      subst hs' hres
      have hpos : s1.board.getD t none = some s1.current_player := by
        rw [hb, hcp]
        simp [List.getD, List.getElem?_set, ht]
      refine ⟨?_, ?_, ?_, afterMill_success s1 mf f1 t r⟩
      · have hgot := afterMill_board_getD s1 mf f1 t r t hpos
        rw [hcp] at hgot
        exact hgot
      · rw [afterMill_total, htot]
      · rw [afterMill_phase, hph, hphase]

/-- Witness for `placing_phase_spec` on a fresh game, placing on the empty
cell 7 (with dummy `from` arguments 0 and 5). -/
theorem placing_phase_spec_witness :
    ((freshGame.board.getD 7 none).isSome = true →
      make_move freshGame 0 7 none = none) ∧
    ((make_move freshGame 0 7 none).map
        (fun p => (p.1.board, p.1.phase, p.1.current_player, p.1.white_pieces,
          p.1.black_pieces, p.1.total_pieces_placed, p.2)) =
      (make_move freshGame 5 7 none).map
        (fun p => (p.1.board, p.1.phase, p.1.current_player, p.1.white_pieces,
          p.1.black_pieces, p.1.total_pieces_placed, p.2))) ∧
    (freshGame.board.getD 7 none = none →
      (make_move freshGame 0 7 none).isSome = true) ∧
    (freshGame.board.getD 7 none = none →
      ∀ s' res, make_move freshGame 0 7 none = some (s', res) →
        s'.board.getD 7 none = some freshGame.current_player ∧
        s'.total_pieces_placed = freshGame.total_pieces_placed + 1 ∧
        s'.phase = (if 18 ≤ freshGame.total_pieces_placed + 1 then 2 else 1) ∧
        res.success = true) :=
  placing_phase_spec freshGame 0 5 7 none rfl (by decide)

/-! ## C10: mill with an illegal removal target -/

/-- C10: when a move forms a mill and the caller supplies a `remove_pos`
that `can_remove` rejects while at least one legal target exists, the call
still succeeds: the piece stays placed, the move is logged with
`remove = None`, no piece is removed, the result reports
`waiting_for_removal = False` (it is only `True` when `remove_pos` is
`None`), and the turn is not switched — the mover stays on turn with the
capture unclaimed. -/
theorem mill_illegal_target_keeps_turn (s s1 : GameState) (f t rp : ℕ)
    (hstep : phaseStep s f t = some (s1, true))
    (hcr : can_remove s1.board s1.current_player rp = false)
    (hany : canRemoveAny s1.board s1.current_player = true) :
    make_move s f t (some rp) =
      some ({ s1 with
                moves := s1.moves ++
                  [{ fromPos := f, toPos := t, removePos := none,
                     player := s1.current_player, mill := true }] },
            { success := true, mill_formed := true,
              waiting_for_removal := false }) ∧
    s1.current_player = s.current_player := by
  refine ⟨?_, phaseStep_current_player s f t s1 true hstep⟩
  unfold make_move
  rw [hstep]
  simp [afterMill, hcr, hany]

/-- Witness for `mill_illegal_target_keeps_turn`: white closes the mill
`[0, 1, 2]` on `c10State` and asks to remove the protected black piece on
3 while the loose black piece on 6 is a legal target. -/
theorem mill_illegal_target_keeps_turn_witness :
    make_move c10State 0 2 (some 3) =
      some ({ c10Mid with
                moves := c10Mid.moves ++
                  [{ fromPos := 0, toPos := 2, removePos := none,
                     player := c10Mid.current_player, mill := true }] },
            { success := true, mill_formed := true,
              waiting_for_removal := false }) ∧
    c10Mid.current_player = c10State.current_player :=
  mill_illegal_target_keeps_turn c10State c10Mid 0 2 3 (by decide) (by decide)
    (by decide)

/-! ## Pairing-engine helper lemmas -/

theorem findOpponent_some (m : LastOpp) (paired : List String) (player o : String)
    (l : List PoolPlayer) (h : findOpponent m paired player l = some o) :
    m player ≠ some o ∧ m o ≠ some player := by
  induction l with
  | nil => simp [findOpponent] at h
  | cons c rest ih =>
    unfold findOpponent at h
    split_ifs at h with h1 h2 h3
    · exact ih h
    · exact ih h
    · exact ih h
    · obtain rfl : c.username = o := Option.some.inj h
      exact ⟨h2, h3⟩

theorem pairLoop_no_repeat (m : LastOpp) (l : List PoolPlayer) :
    ∀ (paired : List String) (a b : String),
      (a, b) ∈ pairLoop m l paired → m a ≠ some b ∧ m b ≠ some a := by
  induction l with
  | nil => intro paired a b h; simp [pairLoop] at h
  | cons p rest ih =>
    intro paired a b h
    unfold pairLoop at h
    split_ifs at h with h1
    · exact ih paired a b h
    · cases hf : findOpponent m paired p.username rest with
      | none => rw [hf] at h; exact ih paired a b h
      | some o =>
        rw [hf] at h
        rcases List.mem_cons.mp h with heq | hmem
        · have heq2 : a = p.username ∧ b = o := by simpa using heq
          rw [heq2.1, heq2.2]
          exact findOpponent_some m paired p.username o rest hf
        · exact ih _ a b hmem

theorem set_last_opponent_left (m : LastOpp) (a b : String) :
    set_last_opponent m a b a = some b := by
  unfold set_last_opponent
  by_cases hab : a = b
  · subst hab; simp
  · simp [hab]

theorem set_last_opponent_right (m : LastOpp) (a b : String) :
    set_last_opponent m a b b = some a := by
  unfold set_last_opponent
  simp

/-! ## C3: Swiss pairing round -/

/-- C3: one pairing round over the sorted pool.  Conjuncts:
(1) with scores `[10, 10, 8, 8]` and no recorded last opponents the round
pairs player1–player2 and player3–player4; (2) no emitted pair joins a
player with its recorded last opponent, in either direction; (3) two
players recorded as having just played each other (via
`set_last_opponent`) are never re-paired in the immediately following
round, whatever the pool; (4) the inner scan picks exactly the first
still-unpaired later candidate that is not the player's last opponent and
does not have the player as its own last opponent (so an ineligible player
is left unpaired rather than falling back to its last opponent). -/
theorem swiss_pairing_spec :
    (lichess_style_pairing noOpp examplePool =
      [("player1", "player2"), ("player3", "player4")]) ∧
    (∀ (m : LastOpp) (pool : List PoolPlayer) (a b : String),
      (a, b) ∈ lichess_style_pairing m pool →
        m a ≠ some b ∧ m b ≠ some a) ∧
    (∀ (m : LastOpp) (a b : String) (pool : List PoolPlayer),
      (a, b) ∉ lichess_style_pairing (set_last_opponent m a b) pool ∧
      (b, a) ∉ lichess_style_pairing (set_last_opponent m a b) pool) ∧
    (∀ (m : LastOpp) (paired : List String) (player : String)
        (l : List PoolPlayer),
      findOpponent m paired player l =
        (l.find? fun c => ! paired.contains c.username &&
            ! (m player == some c.username) &&
            ! (m c.username == some player)).map PoolPlayer.username) := by
  refine ⟨by decide, ?_, ?_, ?_⟩
  · intro m pool a b h
    exact pairLoop_no_repeat m (sortPool pool) [] a b h
  · intro m a b pool
    constructor
    · intro h
      exact (pairLoop_no_repeat _ _ _ a b h).1 (set_last_opponent_left m a b)
    · intro h
      exact (pairLoop_no_repeat _ _ _ b a h).1 (set_last_opponent_right m a b)
  · intro m paired player l
    induction l with
    | nil => rfl
    | cons c rest ih =>
      by_cases h1 : c.username ∈ paired
      · rw [findOpponent, if_pos h1, ih, List.find?_cons_of_neg]
        simp [h1]
      · by_cases h2 : m player = some c.username
        · rw [findOpponent, if_neg h1, if_pos h2, ih, List.find?_cons_of_neg]
          simp [h1, h2]
        · by_cases h3 : m c.username = some player
          · rw [findOpponent, if_neg h1, if_neg h2, if_pos h3, ih,
              List.find?_cons_of_neg]
            simp [h1, h2, h3]
          · rw [findOpponent, if_neg h1, if_neg h2, if_neg h3,
              List.find?_cons_of_pos]
            · rfl
            · simp [h1, h2, h3]

/-- Witness for `swiss_pairing_spec`: its no-repeat part applied to the
pair (player1, player2) the concrete round emits. -/
theorem swiss_pairing_spec_witness :
    noOpp "player1" ≠ some "player2" ∧ noOpp "player2" ≠ some "player1" :=
  swiss_pairing_spec.2.1 noOpp examplePool "player1" "player2" (by decide)

/-! ## Rating-engine helper lemmas -/

theorem pyRound_intCast (n : ℤ) : pyRound ((n : ℤ) : ℝ) = n := by
  unfold pyRound
  rw [Int.floor_intCast]
  by_cases h : Even n
  · rw [if_pos h, Int.ceil_eq_iff]
    constructor <;> linarith
  · rw [if_neg h, Int.floor_eq_iff]
    constructor <;> linarith

/-! ## C5: ELO update at the double rating floor -/

/-- C5: for two players both rated 100 with white winning a rated game,
the K-factor comes from the <1500 tier (K = 32), the expected score is
exactly 1/2, and the new ratings are `100 + 32·(1 − 1/2) = 116` for white
and `max(50, 100 − 16) = 84` for black. -/
theorem elo_floor_pair_update :
    calculate_k_factor 100 0 = 32 ∧
    expected_white 100 100 = 1 / 2 ∧
    update_ratings 100 100 0 0 .white = (116, 84) := by
  have he : expected_white 100 100 = 1 / 2 := by
    unfold expected_white
    norm_num
  have hA : pyRound ((32 : ℝ) * (1 - expected_white 100 100)) = 16 := by
    rw [he, show (32 : ℝ) * (1 - 1 / 2) = ((16 : ℤ) : ℝ) by norm_num,
      pyRound_intCast]
  have hB : pyRound ((32 : ℝ) * (expected_white 100 100 - 1)) = -16 := by
    rw [he, show (32 : ℝ) * ((1 : ℝ) / 2 - 1) = ((-16 : ℤ) : ℝ) by norm_num,
      pyRound_intCast]
  refine ⟨by norm_num [calculate_k_factor], he, ?_⟩
  simp only [update_ratings, ratingChanges, ratingChangesPreFarm, resultScores,
    calculate_k_factor]
  norm_num
  rw [hA, hB]
  norm_num

/-! ## C6: anti-farming override -/

/-- C6: in every rated decisive game where the pre-game rating gap is at
least 400 and the winner was already the higher-rated side, the winner's
final rating change is exactly 0 (overriding the minimum-magnitude rule
applied in `ratingChangesPreFarm`), while the loser's change is exactly
the pre-override value. -/
theorem anti_farming_spec (wr br : ℤ) (wg bg : ℕ) (winner : GameResult)
    (hgap : 400 ≤ |wr - br|)
    (hw : (winner = .white ∧ br < wr) ∨ (winner = .black ∧ wr < br)) :
    (winner = .white →
      (ratingChanges wr br wg bg winner).1 = 0 ∧
      (ratingChanges wr br wg bg winner).2 =
        (ratingChangesPreFarm wr br wg bg winner).2) ∧
    (winner = .black →
      (ratingChanges wr br wg bg winner).2 = 0 ∧
      (ratingChanges wr br wg bg winner).1 =
        (ratingChangesPreFarm wr br wg bg winner).1) := by
  rcases hw with ⟨hwin, hlt⟩ | ⟨hwin, hlt⟩ <;> subst hwin
  · constructor
    · intro _
      simp only [ratingChanges]
      rw [if_pos ⟨hgap, by trivial, hlt⟩, if_neg]
      · exact ⟨by trivial, by trivial⟩
      · rintro ⟨-, hc, -⟩
        cases hc
    · intro hbad
      cases hbad
  · constructor
    · intro hbad
      cases hbad
    · intro _
      simp only [ratingChanges]
      rw [if_pos ⟨hgap, by trivial, hlt⟩, if_neg]
      · exact ⟨by trivial, by trivial⟩
      · rintro ⟨-, hc, -⟩
        cases hc

/-- Witness for `anti_farming_spec`: white rated 600 beats black rated 100
(gap 500 ≥ 400, white higher-rated). -/
theorem anti_farming_spec_witness :
    (GameResult.white = .white →
      (ratingChanges 600 100 0 0 .white).1 = 0 ∧
      (ratingChanges 600 100 0 0 .white).2 =
        (ratingChangesPreFarm 600 100 0 0 .white).2) ∧
    (GameResult.white = .black →
      (ratingChanges 600 100 0 0 .white).2 = 0 ∧
      (ratingChanges 600 100 0 0 .white).1 =
        (ratingChangesPreFarm 600 100 0 0 .white).1) :=
  anti_farming_spec 600 100 0 0 .white (by decide) (Or.inl ⟨rfl, by decide⟩)

end MillELO
